import Mathlib

/-!
# Verification of Superset's timezone display utilities

Shallow embedding of
`superset-frontend/src/explore/components/controls/DateFilterControl/utils/timezoneUtils.ts`
(`convertUTCToTimezone`) and of the companion module defining `convertUTCToIST`.

Both TypeScript functions are built on the JavaScript `Date` built-in, so the
embedding models the relevant parts of ECMA-262:

* a `Date` value is `Option Int`: `some t` is an epoch-milliseconds instant
  with `|t| ≤ 8.64e15` (the ECMA-262 time range), `none` is an Invalid Date
  (its `getTime`/field getters yield `NaN`);
* `new Date(string)` implements the ECMA-262 Date Time String Format
  `YYYY-MM-DD[THH:mm[:ss[.sss]]][Z|±HH:mm]`, with expanded six-digit signed
  years `±YYYYYY`.  Per ECMA-262, a date-only string is interpreted as UTC,
  while a date-time string *without* UTC offset is interpreted as host-local
  time.  The host environment's local timezone is modelled as a fixed offset
  in minutes east of UTC and threaded through as an explicit parameter
  `tzHost` (it is exactly the environmental input the code tries to be
  independent of).  Strings that do not conform to the format yield an
  Invalid Date;
* `new Date(number)` applies the ECMA-262 TimeClip: out-of-range values give
  an Invalid Date;
* the UTC calendar-field getters (`getUTCFullYear`, `getUTCMonth`, ...) use
  the proleptic Gregorian calendar; `civilFromDays`/`daysFromCivil` below are
  the standard day-number/civil-date conversions;
* `String(n)` on an integer-valued number renders decimal digits (with a
  leading `-` when negative), and `String(NaN)` is `"NaN"`;
  `padStart(2, '0')` pads to length two.

None of the operations used by the source can throw, so the `try`/`catch` in
the source is dead code and the embedding is a total function.
-/

/-- Decimal digit character for `n % 10`-style values (defined on `0..9`). -/
def digitCh : Nat → Char
  | 0 => '0' | 1 => '1' | 2 => '2' | 3 => '3' | 4 => '4'
  | 5 => '5' | 6 => '6' | 7 => '7' | 8 => '8' | _ => '9'

/-- Is `c` an ASCII decimal digit? -/
def isDig (c : Char) : Bool := 48 ≤ c.toNat && c.toNat ≤ 57

/-- Fuel-based helper for `natDigits` (structural recursion on the fuel so
that the kernel can evaluate it; any fuel above `n` gives the digits). -/
def natDigitsAux : Nat → Nat → List Char
  | 0, _ => []
  | f + 1, n =>
    if n < 10 then [digitCh n] else natDigitsAux f (n / 10) ++ [digitCh (n % 10)]

/-- Decimal digit list of a natural number (most significant first),
as produced by JavaScript `String(n)`. -/
def natDigits (n : Nat) : List Char := natDigitsAux (n + 1) n

/-- JavaScript `String(i)` for an integer-valued number. -/
def intStr (i : Int) : String :=
  if i < 0 then "-" ++ String.mk (natDigits i.natAbs) else String.mk (natDigits i.toNat)

/-- JavaScript `s.padStart(2, '0')`. -/
def padStart2 (s : String) : String :=
  String.mk (List.replicate (2 - s.data.length) '0' ++ s.data)

/-- JavaScript `s.includes(c)` for a single-character needle. -/
def includes (s : String) (c : Char) : Bool := s.data.contains c

/-- Read exactly `k` decimal digit characters, extending the accumulator
(most significant digit first); return the value and the remaining input. -/
def parseDigitsAux : Nat → Nat → List Char → Option (Nat × List Char)
  | 0, acc, l => some (acc, l)
  | _ + 1, _, [] => none
  | k + 1, acc, c :: l =>
      if isDig c then parseDigitsAux k (acc * 10 + (c.toNat - 48)) l else none

/-- Read exactly `k` decimal digits. -/
def parseDigits (k : Nat) (l : List Char) : Option (Nat × List Char) :=
  parseDigitsAux k 0 l

/-- The numeric value of a digit string, extending accumulator `a` (this is
the fold that `parseDigitsAux` computes). -/
def digitsVal (a : Nat) (l : List Char) : Nat :=
  l.foldl (fun acc c => acc * 10 + (c.toNat - 48)) a

/-- Year production of the ECMA-262 Date Time String Format: four digits, or a
sign followed by six digits (expanded year), `-000000` being rejected. -/
def parseYear : List Char → Option (Int × List Char)
  | [] => none
  | c :: l =>
    if c = '+' then
      match parseDigits 6 l with
      | some (v, r) => some ((v : Int), r)
      | none => none
    else if c = '-' then
      match parseDigits 6 l with
      | some (v, r) => if v = 0 then none else some (-(v : Int), r)
      | none => none
    else
      match parseDigits 4 (c :: l) with
      | some (v, r) => some ((v : Int), r)
      | none => none

/-- Optional `-MM[-DD]` after the year; omitted month/day default to `01`. -/
def parseMonthDay : List Char → Option (Int × Int × List Char)
  | '-' :: l =>
    (match parseDigits 2 l with
     | some (mo, r) =>
       match r with
       | '-' :: r2 =>
         (match parseDigits 2 r2 with
          | some (d, r3) => some ((mo : Int), (d : Int), r3)
          | none => none)
       | _ => some ((mo : Int), 1, r)
     | none => none)
  | l => some (1, 1, l)

/-- Optional `.sss` milliseconds fraction (exactly three digits per the
ECMA-262 grammar). -/
def parseFrac : List Char → Option (Nat × List Char)
  | '.' :: l =>
    (match parseDigits 3 l with
     | some (v, r) => some (v, r)
     | none => none)
  | l => some (0, l)

/-- Optional `:ss[.sss]` after the minutes. -/
def parseSecFrac : List Char → Option (Nat × Nat × List Char)
  | ':' :: l =>
    (match parseDigits 2 l with
     | some (ss, r) =>
       match parseFrac r with
       | some (ms, r2) => some (ss, ms, r2)
       | none => none
     | none => none)
  | l => some (0, 0, l)

/-- Time production `HH:mm[:ss[.sss]]` (after the `T`), returned as
milliseconds into the day.  Hours up to `24` are allowed, `24` only for the
instant `24:00:00.000`, as in ECMA-262. -/
def parseTime (l : List Char) : Option (Int × List Char) :=
  match parseDigits 2 l with
  | none => none
  | some (hh, r) =>
    match r with
    | ':' :: r2 =>
      (match parseDigits 2 r2 with
       | none => none
       | some (mi, r3) =>
         match parseSecFrac r3 with
         | none => none
         | some (ss, ms, r4) =>
           if hh > 24 || mi > 59 || ss > 59
               || (hh == 24 && (mi != 0 || ss != 0 || ms != 0)) then none
           else some ((hh : Int) * 3600000 + (mi : Int) * 60000
                        + (ss : Int) * 1000 + (ms : Int), r4))
    | _ => none

/-- UTC offset of a parsed datetime string. -/
inductive OffsetSpec where
  /-- Trailing `Z`: the string denotes a UTC instant. -/
  | utcZ : OffsetSpec
  /-- Explicit `±HH:mm` offset, in signed minutes east of UTC. -/
  | shifted (mins : Int) : OffsetSpec
  /-- No offset: ECMA-262 interprets date-only forms as UTC and date-time
  forms as host-local time. -/
  | absent : OffsetSpec
deriving DecidableEq

/-- `HH:mm` part of an explicit offset; must consume the whole rest. -/
def parseOffsetHM (l : List Char) : Option Int :=
  match parseDigits 2 l with
  | none => none
  | some (hh, r) =>
    match r with
    | ':' :: r2 =>
      (match parseDigits 2 r2 with
       | none => none
       | some (mm, r3) =>
         if r3 = [] && hh ≤ 23 && mm ≤ 59 then some ((hh : Int) * 60 + (mm : Int))
         else none)
    | _ => none

/-- `TimeZoneUTCOffset` production; must consume the entire remainder of the
string (anything trailing makes the whole string non-conforming). -/
def parseOffset : List Char → Option OffsetSpec
  | [] => some OffsetSpec.absent
  | ['Z'] => some OffsetSpec.utcZ
  | '+' :: l =>
    (match parseOffsetHM l with
     | some m => some (OffsetSpec.shifted m)
     | none => none)
  | '-' :: l =>
    (match parseOffsetHM l with
     | some m => some (OffsetSpec.shifted (-m))
     | none => none)
  | _ => none

/-- Characters the date part of the grammar can consume. -/
def isDateChar (c : Char) : Prop := isDig c = true ∨ c = '+' ∨ c = '-'

/-- Characters the time part of the grammar can consume. -/
def isTimeChar (c : Char) : Prop := isDig c = true ∨ c = ':' ∨ c = '.'

/-- Leap year in the proleptic Gregorian calendar. -/
def isLeapYear (y : Int) : Bool :=
  (y % 4 == 0 && y % 100 != 0) || y % 400 == 0

/-- Number of days in month `mo` of year `y`. -/
def daysInMonth (y mo : Int) : Int :=
  if mo = 2 then (if isLeapYear y then 29 else 28)
  else if mo = 4 ∨ mo = 6 ∨ mo = 9 ∨ mo = 11 then 30
  else 31

/-- Fields of a string conforming to the ECMA-262 Date Time String Format. -/
structure DTParts where
  /-- The (astronomical) year. -/
  year : Int
  /-- Calendar month, `1..12`. -/
  month : Int
  /-- Day of month. -/
  day : Int
  /-- Time of day in milliseconds. -/
  timeMs : Int
  /-- Whether a time component was present. -/
  hasTime : Bool
  /-- The UTC offset component. -/
  offset : OffsetSpec
deriving DecidableEq

/-- The part of the Date Time String Format after the year production:
optional month/day, then optional time with optional offset, validating the
calendar field ranges exactly as `Date.parse` does (out-of-range month, day
of month, hour, minute or second make the string non-conforming). -/
def parseDTrest (y : Int) (r : List Char) : Option DTParts :=
  match parseMonthDay r with
  | none => none
  | some (mo, d, r2) =>
    if mo < 1 ∨ 12 < mo ∨ d < 1 ∨ daysInMonth y mo < d then none
    else
      match r2 with
      | [] => some ⟨y, mo, d, 0, false, OffsetSpec.absent⟩
      | 'T' :: r3 =>
        (match parseTime r3 with
         | none => none
         | some (tms, r4) =>
           match parseOffset r4 with
           | none => none
           | some off => some ⟨y, mo, d, tms, true, off⟩)
      | _ => none

/-- Parse a full ECMA-262 Date Time String Format string. -/
def parseDT (l : List Char) : Option DTParts :=
  match parseYear l with
  | none => none
  | some (y, r) => parseDTrest y r

/-- Day number (days since 1970-01-01) of a civil date, i.e. ECMA-262
`MakeDay` restricted to in-range fields (Howard Hinnant's `days_from_civil`
for the proleptic Gregorian calendar). -/
def daysFromCivil (y m d : Int) : Int :=
  let y' := y - (if m ≤ 2 then 1 else 0)
  let era := y' / 400
  let yoe := y' % 400
  let mp := m + (if 2 < m then -3 else 9)
  let doy := (153 * mp + 2) / 5 + d - 1
  let doe := yoe * 365 + yoe / 4 - yoe / 100 + doy
  era * 146097 + doe - 719468

/-- Civil date `(year, month, day)` of a day number (Howard Hinnant's
`civil_from_days`); this is what the `getUTCFullYear` / `getUTCMonth` /
`getUTCDate` getters compute. -/
def civilFromDays (z : Int) : Int × Int × Int :=
  let z' := z + 719468
  let era := z' / 146097
  let doe := z' % 146097
  let yoe := (doe - doe / 1460 + doe / 36524 - doe / 146096) / 365
  let y := yoe + era * 400
  let doy := doe - (365 * yoe + yoe / 4 - yoe / 100)
  let mp := (5 * doy + 2) / 153
  let d := doy - (153 * mp + 2) / 5 + 1
  let m := mp + (if mp < 10 then 3 else -9)
  (y + (if m ≤ 2 then 1 else 0), m, d)

/-- ECMA-262 `TimeClip` composed with `new Date(number)`: instants beyond
`±8.64e15` milliseconds give an Invalid Date. -/
def mkDate (n : Int) : Option Int :=
  if -8640000000000000 ≤ n ∧ n ≤ 8640000000000000 then some n else none

/-- `new Date(string)`: ECMA-262 `Date.parse`.  `tzHost` is the host
environment's local timezone (fixed offset, minutes east of UTC); it is used
exactly when the string is a date-time form without UTC offset. -/
def jsParse (tzHost : Int) (s : String) : Option Int :=
  match parseDT s.data with
  | none => none
  | some p =>
    let offMs : Int :=
      match p.offset with
      | OffsetSpec.utcZ => 0
      | OffsetSpec.shifted m => m * 60000
      | OffsetSpec.absent => if p.hasTime then tzHost * 60000 else 0
    mkDate (daysFromCivil p.year p.month p.day * 86400000 + p.timeMs - offMs)

/-- Day number of an instant (`Date.prototype.getUTCDay`-style floor). -/
def epochDays (t : Int) : Int := t / 86400000

/-- Milliseconds into the UTC day of an instant. -/
def msOfDay (t : Int) : Int := t % 86400000

/-- `getUTCFullYear` of a valid instant. -/
def yearOf (t : Int) : Int := (civilFromDays (epochDays t)).1

/-- `getUTCMonth() + 1` of a valid instant (calendar month `1..12`). -/
def monthOf (t : Int) : Int := (civilFromDays (epochDays t)).2.1

/-- `getUTCDate` of a valid instant. -/
def dayOf (t : Int) : Int := (civilFromDays (epochDays t)).2.2

/-- `getUTCHours` of a valid instant. -/
def hourOf (t : Int) : Int := (msOfDay t) / 3600000

/-- `getUTCMinutes` of a valid instant. -/
def minuteOf (t : Int) : Int := ((msOfDay t) % 3600000) / 60000

/-- `getUTCSeconds` of a valid instant. -/
def secondOf (t : Int) : Int := ((msOfDay t) % 60000) / 1000

/-- JavaScript `String(x)` for the result of a `Date` getter: a number for a
valid date, `NaN` for an Invalid Date. -/
def jsNumStr : Option Int → String
  | none => "NaN"
  | some n => intStr n

/-- The template-literal rendering
`` `${year}-${month}-${day}T${hours}:${minutes}:${seconds}` `` of the source,
where each component is the corresponding `getUTC*` call on a possibly
invalid `Date`, `String(...)`-converted, and all but the year are
`padStart(2, '0')`-padded. -/
def renderDate (d : Option Int) : String :=
  jsNumStr (d.map yearOf) ++ "-"
    ++ padStart2 (jsNumStr (d.map monthOf)) ++ "-"
    ++ padStart2 (jsNumStr (d.map dayOf)) ++ "T"
    ++ padStart2 (jsNumStr (d.map hourOf)) ++ ":"
    ++ padStart2 (jsNumStr (d.map minuteOf)) ++ ":"
    ++ padStart2 (jsNumStr (d.map secondOf))

/-- `renderDate` on a valid instant, with the `Option` layer reduced away:
the `YYYY-MM-DDTHH:mm:ss` rendering of the instant's UTC calendar fields,
month/day/hour/minute/second zero-padded to two digits. -/
def renderValid (u : Int) : String :=
  intStr (yearOf u) ++ "-"
    ++ padStart2 (intStr (monthOf u)) ++ "-"
    ++ padStart2 (intStr (dayOf u)) ++ "T"
    ++ padStart2 (intStr (hourOf u)) ++ ":"
    ++ padStart2 (intStr (minuteOf u)) ++ ":"
    ++ padStart2 (intStr (secondOf u))

/-- The `TimezoneType` union type of the source. -/
inductive TimezoneType where
  /-- Coordinated Universal Time. -/
  | UTC : TimezoneType
  /-- Indian Standard Time (UTC+5:30). -/
  | IST : TimezoneType
deriving DecidableEq

/-- The IST shift of the source: `5.5 * 60 * 60 * 1000` milliseconds
(exact in IEEE-754 doubles at these magnitudes). -/
def istOffsetMs : Int := 19800000

/-- `new Date(d.getTime() + ms)`: on an Invalid Date, `getTime()` is `NaN`,
`NaN + ms` is `NaN`, and `new Date(NaN)` is again an Invalid Date; on a valid
date the sum goes through `TimeClip`. -/
def jsAddMs (d : Option Int) (ms : Int) : Option Int :=
  match d with
  | none => none
  | some t => mkDate (t + ms)

/-- `convertUTCToTimezone` of `timezoneUtils.ts`.  `tzHost` models the host
environment's local timezone (an implicit input of the JavaScript runtime,
made explicit here); the source function's own parameters follow. -/
def convertUTCToTimezone (tzHost : Int) (utcDateTime : String)
    (timezone : TimezoneType) : String :=
  if utcDateTime == "" || utcDateTime == "-∞" || utcDateTime == "∞" then
    utcDateTime
  else if timezone == TimezoneType.UTC then
    utcDateTime
  else
    let utcDate : Option Int :=
      if includes utcDateTime 'Z' || includes utcDateTime '+' then
        jsParse tzHost utcDateTime
      else if includes utcDateTime 'T' then
        jsParse tzHost (utcDateTime ++ "Z")
      else
        jsParse tzHost utcDateTime
    let targetDate : Option Int :=
      if timezone == TimezoneType.IST then jsAddMs utcDate istOffsetMs
      else utcDate
    renderDate targetDate

/-- `convertUTCToIST` of the companion module: identical to
`convertUTCToTimezone` with the IST shift hardcoded (and no UTC fast path). -/
def convertUTCToIST (tzHost : Int) (utcDateTime : String) : String :=
  if utcDateTime == "" || utcDateTime == "-∞" || utcDateTime == "∞" then
    utcDateTime
  else
    let utcDate : Option Int :=
      if includes utcDateTime 'Z' || includes utcDateTime '+' then
        jsParse tzHost utcDateTime
      else if includes utcDateTime 'T' then
        jsParse tzHost (utcDateTime ++ "Z")
      else
        jsParse tzHost utcDateTime
    let istDate : Option Int := jsAddMs utcDate istOffsetMs
    renderDate istDate

/-- The sentinel test of the source (`!utcDateTime || utcDateTime === '-∞'
|| utcDateTime === '∞'`; for a string, `!s` is truthy exactly on `""`). -/
def isSentinelStr (s : String) : Bool :=
  s == "" || s == "-∞" || s == "∞"

/-- The parse step of `convertUTCToTimezone` (the `let utcDate` block),
exactly as the specification describes it: parse as-is when the string
contains `Z` or `+`, parse with an appended `Z` when it contains `T`,
otherwise parse directly. -/
def specParseStep (tzHost : Int) (s : String) : Option Int :=
  if includes s 'Z' || includes s '+' then jsParse tzHost s
  else if includes s 'T' then jsParse tzHost (s ++ "Z")
  else jsParse tzHost s

/-- The parse step of `convertUTCToTimezone`/`convertUTCToIST` exactly as
the source computes it (`let utcDate = ...`): the branch on the input's
shape followed by `new Date`. -/
def parsedInstant (tzHost : Int) (s : String) : Option Int :=
  if includes s 'Z' || includes s '+' then jsParse tzHost s
  else if includes s 'T' then jsParse tzHost (s ++ "Z")
  else jsParse tzHost s

/-- Does `s` parse as a date-time form without UTC offset?  ECMA-262
interprets exactly these in host-local time. -/
def isLocalDateTime (s : String) : Bool :=
  match parseDT s.data with
  | some p => p.hasTime && p.offset == OffsetSpec.absent
  | none => false

/-- Truncate an instant to whole seconds (the formatted output has no
millisecond field). -/
def truncSec (t : Int) : Int := t - t % 1000

-- Sanity checks of the embedding against the source's documented examples.
example : convertUTCToTimezone 0 "2024-01-01T00:00:00" TimezoneType.IST
    = "2024-01-01T05:30:00" := by decide
example : convertUTCToTimezone 0 "2024-01-01T00:00:00" TimezoneType.UTC
    = "2024-01-01T00:00:00" := by decide
example : convertUTCToIST 0 "2024-01-01T12:00:00" = "2024-01-01T17:30:00" := by
  decide
example : jsParse 0 "2024-01-01T00:00:00Z" = some 1704067200000 := by decide
example : daysFromCivil 2024 1 1 = 19723 := by decide
example : civilFromDays 19723 = (2024, 1, 1) := by decide
example : jsParse 0 "not-a-date" = none := by decide

/-! ## Correctness of the civil-calendar conversion -/

/-- Decomposition of `civilFromDays` into its intermediate quantities. -/
theorem civilFromDays_spec (z : Int) :
    ∃ era doe yoe doy mp : Int,
      146097 * era + doe = z + 719468 ∧ 0 ≤ doe ∧ doe < 146097 ∧
      yoe = (doe - doe / 1460 + doe / 36524 - doe / 146096) / 365 ∧
      doy = doe - (365 * yoe + yoe / 4 - yoe / 100) ∧
      mp = (5 * doy + 2) / 153 ∧
      civilFromDays z
        = (yoe + era * 400 + (if mp + (if mp < 10 then 3 else -9) ≤ 2 then 1 else 0),
           mp + (if mp < 10 then 3 else -9),
           doy - (153 * mp + 2) / 5 + 1) := by
  refine ⟨(z + 719468) / 146097, (z + 719468) % 146097, _, _, _,
    by omega, by omega, by omega, rfl, rfl, rfl, rfl⟩

set_option maxHeartbeats 4000000 in
/-- Bounds on the year-of-era and day-of-year quantities inside
`civilFromDays`: the formula `(doe - doe/1460 + doe/36524 - doe/146096) / 365`
finds the year of era containing day `doe`, leaving a day-of-year remainder
in `[0, 365]`. -/
theorem civilEraBounds (doe a b c n yoe p q : Int)
    (ha : 1460 * a ≤ doe) (ha' : doe < 1460 * a + 1460)
    (hb : 36524 * b ≤ doe) (hb' : doe < 36524 * b + 36524)
    (hc : 146096 * c ≤ doe) (hc' : doe < 146096 * c + 146096)
    (hn : n = doe - a + b - c)
    (hy : 365 * yoe ≤ n) (hy' : n < 365 * yoe + 365)
    (hp : 4 * p ≤ yoe) (hp' : yoe < 4 * p + 4)
    (hq : 100 * q ≤ yoe) (hq' : yoe < 100 * q + 100)
    (h0 : 0 ≤ doe) (h1 : doe ≤ 146096) :
    0 ≤ yoe ∧ yoe ≤ 399 ∧ 0 ≤ doe - (365 * yoe + p - q) ∧
      doe - (365 * yoe + p - q) ≤ 365 := by
  have hyl : 0 ≤ yoe := by omega
  have hyu : yoe ≤ 399 := by omega
  have hpb0 : 0 ≤ p := by omega
  have hpb1 : p ≤ 99 := by omega
  refine ⟨hyl, hyu, ?_⟩
  interval_cases p <;> omega

set_option maxHeartbeats 1000000 in
/-- `daysFromCivil` is a left inverse of `civilFromDays`: converting a day
number to a civil date and back is the identity. -/
theorem daysFromCivil_civilFromDays (z : Int) :
    daysFromCivil (civilFromDays z).1 (civilFromDays z).2.1 (civilFromDays z).2.2
      = z := by
  obtain ⟨era, doe, yoe, doy, mp, hsplit, h0, h1, hyoe, hdoy, hmp, hout⟩ :=
    civilFromDays_spec z
  rw [hout]
  have hcore := civilEraBounds doe (doe / 1460) (doe / 36524) (doe / 146096)
      (doe - doe / 1460 + doe / 36524 - doe / 146096) yoe (yoe / 4) (yoe / 100)
      (by omega) (by omega) (by omega) (by omega) (by omega) (by omega) rfl
      (by omega) (by omega) (by omega) (by omega) (by omega) (by omega)
      (by omega) (by omega)
  obtain ⟨hc1, hc2, hc3, hc4⟩ := hcore
  simp only [daysFromCivil]
  have k0 : (yoe + era * 400 + 0 - 0) / 400 = era := by omega
  have k1 : (yoe + era * 400 + 1 - 1) / 400 = era := by omega
  have l0 : (yoe + era * 400 + 0 - 0) % 400 = yoe := by omega
  have l1 : (yoe + era * 400 + 1 - 1) % 400 = yoe := by omega
  have m0 : (yoe + era * 400 + 0 - 0) % 400 / 4 = yoe / 4 := by omega
  have m1 : (yoe + era * 400 + 1 - 1) % 400 / 4 = yoe / 4 := by omega
  have m2 : (yoe + era * 400 + 0 - 0) % 400 / 100 = yoe / 100 := by omega
  have m3 : (yoe + era * 400 + 1 - 1) % 400 / 100 = yoe / 100 := by omega
  have n0 : (153 * (mp + 3 + -3) + 2) / 5 = (153 * mp + 2) / 5 := by omega
  have n1 : (153 * (mp + -9 + 9) + 2) / 5 = (153 * mp + 2) / 5 := by omega
  split_ifs <;> omega

set_option maxHeartbeats 1000000 in
/-- The month and day produced by `civilFromDays` are in calendar range. -/
theorem civilFromDays_mday_bounds (z : Int) :
    1 ≤ (civilFromDays z).2.1 ∧ (civilFromDays z).2.1 ≤ 12 ∧
      1 ≤ (civilFromDays z).2.2 ∧ (civilFromDays z).2.2 ≤ 31 := by
  obtain ⟨era, doe, yoe, doy, mp, hsplit, h0, h1, hyoe, hdoy, hmp, hout⟩ :=
    civilFromDays_spec z
  rw [hout]
  dsimp only
  have hcore := civilEraBounds doe (doe / 1460) (doe / 36524) (doe / 146096)
      (doe - doe / 1460 + doe / 36524 - doe / 146096) yoe (yoe / 4) (yoe / 100)
      (by omega) (by omega) (by omega) (by omega) (by omega) (by omega) rfl
      (by omega) (by omega) (by omega) (by omega) (by omega) (by omega)
      (by omega) (by omega)
  obtain ⟨hc1, hc2, hc3, hc4⟩ := hcore
  have hd1 : 5 * ((153 * mp + 2) / 5) ≤ 153 * mp + 2 := by omega
  have hd2 : 153 * mp + 2 < 5 * ((153 * mp + 2) / 5) + 5 := by omega
  have hmpb : 0 ≤ mp ∧ mp ≤ 11 := by omega
  have h5 : 5 * ((153 * mp + 2) / 5) ≤ 5 * doy + 4 := by omega
  have h6 : (153 * mp + 2) / 5 ≤ doy := by omega
  have h7 : 5 * doy - 152 ≤ 5 * ((153 * mp + 2) / 5) := by omega
  have h8 : doy - 30 ≤ (153 * mp + 2) / 5 := by omega
  refine ⟨?_, ?_, ?_, ?_⟩ <;> · first
    | (split_ifs <;> omega)
    | omega

/-! ## Decimal digit strings -/

theorem digitCh_toNat {n : Nat} (h : n < 10) : (digitCh n).toNat = 48 + n := by
  interval_cases n <;> rfl

theorem isDig_digitCh {n : Nat} (h : n < 10) : isDig (digitCh n) = true := by
  interval_cases n <;> rfl

theorem isDig_ne {c : Char} (h : isDig c = true) :
    c ≠ '+' ∧ c ≠ '-' ∧ c ≠ 'T' ∧ c ≠ ':' ∧ c ≠ '.' ∧ c ≠ 'Z' := by
  refine ⟨?_, ?_, ?_, ?_, ?_, ?_⟩ <;> · rintro rfl; exact absurd h (by decide)

theorem natDigitsAux_fuel : ∀ f g n, n < f → n < g → natDigitsAux f n = natDigitsAux g n := by
  intro f
  induction f with
  | zero => intro g n h; omega
  | succ f ih =>
    intro g n h1 h2
    cases g with
    | zero => omega
    | succ g =>
      simp only [natDigitsAux]
      by_cases h10 : n < 10
      · simp [h10]
      · simp only [h10, if_false]
        have := ih g (n / 10) (by omega) (by omega)
        rw [this]

theorem natDigits_eq (n : Nat) :
    natDigits n = if n < 10 then [digitCh n]
      else natDigits (n / 10) ++ [digitCh (n % 10)] := by
  show natDigitsAux (n + 1) n = _
  simp only [natDigitsAux]
  by_cases h10 : n < 10
  · simp [h10]
  · simp only [h10, if_false]
    rw [natDigitsAux_fuel n (n / 10 + 1) (n / 10) (by omega) (by omega)]
    rfl

theorem natDigits_all_digits (n : Nat) : ∀ c ∈ natDigits n, isDig c = true := by
  induction n using Nat.strong_induction_on with
  | _ n ih =>
    rw [natDigits_eq]
    by_cases h10 : n < 10
    · simp only [h10, if_true, List.mem_singleton]
      rintro c rfl
      exact isDig_digitCh h10
    · simp only [h10, if_false, List.mem_append, List.mem_singleton]
      rintro c (hc | rfl)
      · exact ih (n / 10) (by omega) c hc
      · exact isDig_digitCh (by omega)

theorem natDigits_ne_nil (n : Nat) : natDigits n ≠ [] := by
  rw [natDigits_eq]
  by_cases h10 : n < 10 <;> simp [h10]

theorem digitsVal_natDigits (n : Nat) :
    ∀ a, digitsVal a (natDigits n) = a * 10 ^ (natDigits n).length + n := by
  induction n using Nat.strong_induction_on with
  | _ n ih =>
    intro a
    rw [natDigits_eq]
    by_cases h10 : n < 10
    · simp only [h10, if_true, digitsVal, List.foldl_cons, List.foldl_nil,
        List.length_singleton, pow_one]
      rw [digitCh_toNat h10]
      omega
    · simp only [h10, if_false, digitsVal, List.foldl_append, List.foldl_cons,
        List.foldl_nil, List.length_append, List.length_singleton]

      have hv := ih (n / 10) (by omega) a
      simp only [digitsVal] at hv
      rw [hv, digitCh_toNat (by omega : n % 10 < 10), pow_succ, ← mul_assoc]
      omega

theorem parseDigitsAux_digits (ds : List Char) :
    ∀ a r, (∀ c ∈ ds, isDig c = true) →
      parseDigitsAux ds.length a (ds ++ r) = some (digitsVal a ds, r) := by
  induction ds with
  | nil => intro a r _; rfl
  | cons c ds ih =>
    intro a r hds
    have hc : isDig c = true := hds c (List.mem_cons_self _ _)
    simp only [List.length_cons, List.cons_append, parseDigitsAux, hc, if_true]
    exact ih _ r (fun x hx => hds x (List.mem_cons_of_mem _ hx))

theorem parseDigitsAux_sound (k : Nat) :
    ∀ a l v r, parseDigitsAux k a l = some (v, r) →
      ∃ pre, l = pre ++ r ∧ pre.length = k ∧ (∀ c ∈ pre, isDig c = true) ∧
        v = digitsVal a pre := by
  induction k with
  | zero =>
    intro a l v r h
    simp only [parseDigitsAux, Option.some.injEq, Prod.mk.injEq] at h
    exact ⟨[], by simp [h.2], rfl, by simp, by simp [digitsVal, h.1]⟩
  | succ k ih =>
    intro a l v r h
    match l with
    | [] => simp [parseDigitsAux] at h
    | c :: l =>
      simp only [parseDigitsAux] at h
      by_cases hc : isDig c
      · rw [if_pos hc] at h
        obtain ⟨pre, hl, hlen, hdig, hval⟩ := ih _ _ _ _ h
        refine ⟨c :: pre, by simp [hl], by simp [hlen], ?_, ?_⟩
        · intro x hx
          rcases List.mem_cons.mp hx with rfl | hx2
          · exact hc
          · exact hdig x hx2
        · simpa [digitsVal] using hval
      · rw [if_neg hc] at h
        exact absurd h (by simp)

theorem parseDigits_exact (k : Nat) :
    ∀ (a : Nat) (ds rest out : List Char) (c : Char) (v : Nat),
      (∀ x ∈ ds, isDig x = true) → isDig c = false →
      parseDigitsAux k a (ds ++ c :: rest) = some (v, out) →
      (ds.length = k ∧ v = digitsVal a ds ∧ out = c :: rest) ∨
        (k < ds.length ∧ ∃ d out', out = d :: out' ∧ isDig d = true) := by
  induction k with
  | zero =>
    intro a ds rest out c v hds hc h
    simp only [parseDigitsAux, Option.some.injEq, Prod.mk.injEq] at h
    match ds with
    | [] => exact Or.inl ⟨rfl, by simp [digitsVal, h.1], by simpa using h.2.symm⟩
    | d :: ds =>
      refine Or.inr ⟨by simp, d, ds ++ c :: rest, by simp [h.2.symm], ?_⟩
      exact hds d (List.mem_cons_self _ _)
  | succ k ih =>
    intro a ds rest out c v hds hc h
    match ds with
    | [] =>
      simp only [List.nil_append, parseDigitsAux, hc, Bool.false_eq_true,
        if_false] at h
      exact absurd h (by simp)
    | d :: ds =>
      have hd : isDig d = true := hds d (List.mem_cons_self _ _)
      simp only [List.cons_append, parseDigitsAux, hd, if_true] at h
      have := ih _ ds rest out c v (fun x hx => hds x (List.mem_cons_of_mem _ hx)) hc h
      rcases this with ⟨hlen, hval, hout⟩ | ⟨hlt, hrest⟩
      · exact Or.inl ⟨by simp [hlen], by simpa [digitsVal] using hval, hout⟩
      · exact Or.inr ⟨by simp; omega, hrest⟩

theorem parseYear_sound {l : List Char} {y : Int} {r : List Char}
    (h : parseYear l = some (y, r)) :
    ∃ pre, l = pre ++ r ∧ ∀ c ∈ pre, isDateChar c := by
  match l with
  | [] => simp [parseYear] at h
  | c :: l =>
    simp only [parseYear] at h
    by_cases hp : c = '+'
    · subst hp
      rw [if_pos rfl] at h
      cases hd : parseDigits 6 l with
      | none => rw [hd] at h; exact absurd h (by simp)
      | some vr =>
        obtain ⟨v, r'⟩ := vr
        rw [hd] at h
        simp only [Option.some.injEq, Prod.mk.injEq] at h
        obtain ⟨pre, hpre, _, hdig, _⟩ := parseDigitsAux_sound _ _ _ _ _ hd
        refine ⟨'+' :: pre, ?_, ?_⟩
        · simp [hpre, h.2]
        · intro x hx
          rcases List.mem_cons.mp hx with rfl | hx2
          · exact Or.inr (Or.inl rfl)
          · exact Or.inl (hdig x hx2)
    · rw [if_neg hp] at h
      by_cases hm : c = '-'
      · subst hm
        rw [if_pos rfl] at h
        cases hd : parseDigits 6 l with
        | none => rw [hd] at h; exact absurd h (by simp)
        | some vr =>
          obtain ⟨v, r'⟩ := vr
          rw [hd] at h
          dsimp only at h
          by_cases hv : v = 0
          · rw [if_pos hv] at h; exact absurd h (by simp)
          · rw [if_neg hv] at h
            simp only [Option.some.injEq, Prod.mk.injEq] at h
            obtain ⟨pre, hpre, _, hdig, _⟩ := parseDigitsAux_sound _ _ _ _ _ hd
            refine ⟨'-' :: pre, ?_, ?_⟩
            · simp [hpre, h.2]
            · intro x hx
              rcases List.mem_cons.mp hx with rfl | hx2
              · exact Or.inr (Or.inr rfl)
              · exact Or.inl (hdig x hx2)
      · rw [if_neg hm] at h
        cases hd : parseDigits 4 (c :: l) with
        | none => rw [hd] at h; exact absurd h (by simp)
        | some vr =>
          obtain ⟨v, r'⟩ := vr
          rw [hd] at h
          simp only [Option.some.injEq, Prod.mk.injEq] at h
          obtain ⟨pre, hpre, _, hdig, _⟩ := parseDigitsAux_sound _ _ _ _ _ hd
          refine ⟨pre, ?_, ?_⟩
          · rw [hpre, h.2]
          · exact fun x hx => Or.inl (hdig x hx)

theorem parseMonthDay_sound {l : List Char} {mo d : Int} {r : List Char}
    (h : parseMonthDay l = some (mo, d, r)) :
    ∃ pre, l = pre ++ r ∧ ∀ c ∈ pre, isDateChar c := by
  unfold parseMonthDay at h
  split at h
  case _ l2 =>
    cases hd : parseDigits 2 l2 with
    | none => rw [hd] at h; exact absurd h (by simp)
    | some vr =>
      obtain ⟨v, r'⟩ := vr
      rw [hd] at h
      dsimp only at h
      obtain ⟨pre1, hpre1, _, hdig1, _⟩ := parseDigitsAux_sound _ _ _ _ _ hd
      split at h
      case _ r2 =>
        cases hd2 : parseDigits 2 r2 with
        | none => rw [hd2] at h; exact absurd h (by simp)
        | some vr2 =>
          obtain ⟨v2, r3⟩ := vr2
          rw [hd2] at h
          dsimp only at h
          simp only [Option.some.injEq, Prod.mk.injEq] at h
          obtain ⟨pre2, hpre2, _, hdig2, _⟩ := parseDigitsAux_sound _ _ _ _ _ hd2
          refine ⟨'-' :: pre1 ++ '-' :: pre2, ?_, ?_⟩
          · simp only [List.cons_append, List.append_assoc]
            rw [hpre1, hpre2, h.2.2]
          · intro x hx
            rcases List.mem_cons.mp hx with rfl | hx
            · exact Or.inr (Or.inr rfl)
            · rcases List.mem_append.mp hx with hx | hx
              · exact Or.inl (hdig1 x hx)
              · rcases List.mem_cons.mp hx with rfl | hx
                · exact Or.inr (Or.inr rfl)
                · exact Or.inl (hdig2 x hx)
      case _ =>
        simp only [Option.some.injEq, Prod.mk.injEq] at h
        refine ⟨'-' :: pre1, ?_, ?_⟩
        · rw [List.cons_append, hpre1, h.2.2]
        · intro x hx
          rcases List.mem_cons.mp hx with rfl | hx2
          · exact Or.inr (Or.inr rfl)
          · exact Or.inl (hdig1 x hx2)
  case _ =>
    simp only [Option.some.injEq, Prod.mk.injEq] at h
    exact ⟨[], by simp [h.2.2], by simp⟩

theorem parseFrac_sound {l : List Char} {v : Nat} {r : List Char}
    (h : parseFrac l = some (v, r)) :
    ∃ pre, l = pre ++ r ∧ ∀ c ∈ pre, isTimeChar c := by
  unfold parseFrac at h
  split at h
  case _ l2 =>
    cases hd : parseDigits 3 l2 with
    | none => rw [hd] at h; exact absurd h (by simp)
    | some vr =>
      obtain ⟨v2, r'⟩ := vr
      rw [hd] at h
      simp only [Option.some.injEq, Prod.mk.injEq] at h
      obtain ⟨pre, hpre, _, hdig, _⟩ := parseDigitsAux_sound _ _ _ _ _ hd
      refine ⟨'.' :: pre, ?_, ?_⟩
      · rw [List.cons_append, hpre, h.2]
      · intro x hx
        rcases List.mem_cons.mp hx with rfl | hx2
        · exact Or.inr (Or.inr rfl)
        · exact Or.inl (hdig x hx2)
  case _ =>
    simp only [Option.some.injEq, Prod.mk.injEq] at h
    exact ⟨[], by simp [h.2], by simp⟩

theorem parseSecFrac_sound {l : List Char} {ss ms : Nat} {r : List Char}
    (h : parseSecFrac l = some (ss, ms, r)) :
    ∃ pre, l = pre ++ r ∧ ∀ c ∈ pre, isTimeChar c := by
  unfold parseSecFrac at h
  split at h
  case _ l2 =>
    cases hd : parseDigits 2 l2 with
    | none => rw [hd] at h; exact absurd h (by simp)
    | some vr =>
      obtain ⟨v2, r'⟩ := vr
      rw [hd] at h
      dsimp only at h
      obtain ⟨pre1, hpre1, _, hdig1, _⟩ := parseDigitsAux_sound _ _ _ _ _ hd
      cases hf : parseFrac r' with
      | none => rw [hf] at h; exact absurd h (by simp)
      | some vr2 =>
        obtain ⟨v3, r2⟩ := vr2
        rw [hf] at h
        simp only [Option.some.injEq, Prod.mk.injEq] at h
        obtain ⟨pre2, hpre2, hdig2⟩ := parseFrac_sound hf
        refine ⟨':' :: pre1 ++ pre2, ?_, ?_⟩
        · simp only [List.cons_append, List.append_assoc]
          rw [hpre1, hpre2, h.2.2]
        · intro x hx
          rcases List.mem_cons.mp hx with rfl | hx
          · exact Or.inr (Or.inl rfl)
          · rcases List.mem_append.mp hx with hx | hx
            · exact Or.inl (hdig1 x hx)
            · exact hdig2 x hx
  case _ =>
    simp only [Option.some.injEq, Prod.mk.injEq] at h
    exact ⟨[], by simp [h.2.2], by simp⟩

theorem parseTime_sound {l : List Char} {tms : Int} {r : List Char}
    (h : parseTime l = some (tms, r)) :
    ∃ pre, l = pre ++ r ∧ ∀ c ∈ pre, isTimeChar c := by
  unfold parseTime at h
  cases hd : parseDigits 2 l with
  | none => rw [hd] at h; exact absurd h (by simp)
  | some vr =>
    obtain ⟨hh, r'⟩ := vr
    rw [hd] at h
    dsimp only at h
    obtain ⟨pre1, hpre1, _, hdig1, _⟩ := parseDigitsAux_sound _ _ _ _ _ hd
    split at h
    case _ r2 =>
      cases hd2 : parseDigits 2 r2 with
      | none => rw [hd2] at h; exact absurd h (by simp)
      | some vr2 =>
        obtain ⟨mi, r3⟩ := vr2
        rw [hd2] at h
        dsimp only at h
        obtain ⟨pre2, hpre2, _, hdig2, _⟩ := parseDigitsAux_sound _ _ _ _ _ hd2
        cases hs : parseSecFrac r3 with
        | none => rw [hs] at h; exact absurd h (by simp)
        | some vr3 =>
          obtain ⟨ss, ms, r4⟩ := vr3
          rw [hs] at h
          dsimp only at h
          split at h
          · exact absurd h (by simp)
          · simp only [Option.some.injEq, Prod.mk.injEq] at h
            obtain ⟨pre3, hpre3, hdig3⟩ := parseSecFrac_sound hs
            refine ⟨pre1 ++ ':' :: pre2 ++ pre3, ?_, ?_⟩
            · simp only [List.append_assoc, List.cons_append]
              rw [hpre1, hpre2, hpre3, h.2]
            · intro x hx
              rcases List.mem_append.mp hx with hx | hx
              · rcases List.mem_append.mp hx with hx | hx
                · exact Or.inl (hdig1 x hx)
                · rcases List.mem_cons.mp hx with rfl | hx
                  · exact Or.inr (Or.inl rfl)
                  · exact Or.inl (hdig2 x hx)
              · exact hdig3 x hx
    case _ => exact absurd h (by simp)

theorem parseOffset_absent {r : List Char}
    (h : parseOffset r = some OffsetSpec.absent) : r = [] := by
  unfold parseOffset at h
  split at h
  · rfl
  · exact absurd h (by simp)
  · split at h <;> simp at h
  · split at h <;> simp at h
  · exact absurd h (by simp)

theorem parseDT_struct {l : List Char} {p : DTParts} (h : parseDT l = some p) :
    (p.hasTime = false ∧ p.offset = OffsetSpec.absent ∧ p.timeMs = 0
        ∧ ∀ c ∈ l, isDateChar c) ∨
      (p.hasTime = true ∧ ∃ pre r4, l = pre ++ r4 ∧ 'T' ∈ pre ∧
        (∀ c ∈ pre, isDateChar c ∨ c = 'T' ∨ isTimeChar c) ∧
        parseOffset r4 = some p.offset) := by
  unfold parseDT at h
  cases hy : parseYear l with
  | none => rw [hy] at h; exact absurd h (by simp)
  | some yr =>
    obtain ⟨y, r⟩ := yr
    rw [hy] at h
    dsimp only at h
    unfold parseDTrest at h
    obtain ⟨preY, hpreY, hdigY⟩ := parseYear_sound hy
    cases hmd : parseMonthDay r with
    | none => rw [hmd] at h; exact absurd h (by simp)
    | some mdr =>
      obtain ⟨mo, d, r2⟩ := mdr
      rw [hmd] at h
      dsimp only at h
      obtain ⟨preMD, hpreMD, hdigMD⟩ := parseMonthDay_sound hmd
      split at h
      · exact absurd h (by simp)
      · split at h
        case _ =>
          simp only [Option.some.injEq] at h
          subst h
          refine Or.inl ⟨rfl, rfl, rfl, ?_⟩
          intro c hc
          rw [hpreY, hpreMD, List.append_nil] at hc
          rcases List.mem_append.mp hc with hc | hc
          · exact hdigY c hc
          · exact hdigMD c hc
        case _ r3 =>
          cases ht : parseTime r3 with
          | none => rw [ht] at h; exact absurd h (by simp)
          | some tr =>
            obtain ⟨tms, r4⟩ := tr
            rw [ht] at h
            dsimp only at h
            obtain ⟨preT, hpreT, hdigT⟩ := parseTime_sound ht
            cases ho : parseOffset r4 with
            | none => rw [ho] at h; exact absurd h (by simp)
            | some off =>
              rw [ho] at h
              simp only [Option.some.injEq] at h
              subst h
              refine Or.inr ⟨rfl, preY ++ preMD ++ 'T' :: preT, r4, ?_, ?_, ?_, ho⟩
              · rw [hpreY, hpreMD, hpreT]
                simp
              · simp
              · intro c hc
                rcases List.mem_append.mp hc with hc | hc
                · rcases List.mem_append.mp hc with hc | hc
                  · exact Or.inl (hdigY c hc)
                  · exact Or.inl (hdigMD c hc)
                · rcases List.mem_cons.mp hc with rfl | hc
                  · exact Or.inr (Or.inl rfl)
                  · exact Or.inr (Or.inr (hdigT c hc))
        case _ =>
          exact absurd h (by simp)

theorem notZ_of_class {c : Char} (hc : isDateChar c ∨ c = 'T' ∨ isTimeChar c) :
    c ≠ 'Z' := by
  rintro rfl
  unfold isDateChar isTimeChar at hc
  rcases hc with (h | h | h) | h | (h | h | h) <;> exact absurd h (by decide)

theorem parseDT_hasTime_T {l : List Char} {p : DTParts} (h : parseDT l = some p)
    (ht : p.hasTime = true) : 'T' ∈ l := by
  rcases parseDT_struct h with ⟨hf, _, _, _⟩ | ⟨_, pre, r4, hl, hT, _, _⟩
  · rw [hf] at ht; exact absurd ht (by simp)
  · rw [hl]; exact List.mem_append.mpr (Or.inl hT)

theorem parseDT_absent_no_Z {l : List Char} {p : DTParts} (h : parseDT l = some p)
    (ha : p.offset = OffsetSpec.absent) : 'Z' ∉ l := by
  rcases parseDT_struct h with ⟨_, _, _, hcl⟩ | ⟨_, pre, r4, hl, _, hcl, ho⟩
  · intro hz
    have := hcl 'Z' hz
    exact notZ_of_class (Or.inl this) rfl
  · rw [ha] at ho
    have hr4 : r4 = [] := parseOffset_absent ho
    subst hr4
    rw [List.append_nil] at hl
    subst hl
    intro hz
    exact notZ_of_class (hcl 'Z' hz) rfl

theorem parseDT_Zsuffix_not_absent {l : List Char} {p : DTParts}
    (h : parseDT (l ++ ['Z']) = some p) : p.offset ≠ OffsetSpec.absent := by
  intro ha
  exact parseDT_absent_no_Z h ha (List.mem_append.mpr (Or.inr (List.mem_singleton.mpr rfl)))

/-! ## Parsing a rendered datetime string recovers its fields -/

theorem intStr_data_nonneg {x : Int} (h0 : 0 ≤ x) :
    (intStr x).data = natDigits x.toNat := by
  unfold intStr
  rw [if_neg (by omega)]

theorem intStr_data_neg {x : Int} (h0 : x < 0) :
    (intStr x).data = '-' :: natDigits x.natAbs := by
  unfold intStr
  rw [if_pos h0]
  rfl

theorem p2_data {x : Int} (h0 : 0 ≤ x) (h1 : x < 100) :
    (padStart2 (intStr x)).data
      = [digitCh (x.toNat / 10), digitCh (x.toNat % 10)] := by
  have hd : (intStr x).data = natDigits x.toNat := intStr_data_nonneg h0
  unfold padStart2
  rw [hd]
  by_cases h10 : x.toNat < 10
  · rw [natDigits_eq, if_pos h10]
    have : x.toNat / 10 = 0 := by omega
    rw [this]
    have : x.toNat % 10 = x.toNat := by omega
    rw [this]
    rfl
  · rw [natDigits_eq, if_neg h10]
    have hq : x.toNat / 10 < 10 := by omega
    rw [natDigits_eq, if_pos hq]
    rfl

theorem p2_parse {x : Int} (h0 : 0 ≤ x) (h1 : x < 100) (r : List Char) :
    parseDigits 2 ((padStart2 (intStr x)).data ++ r) = some (x.toNat, r) := by
  rw [p2_data h0 h1]
  have hq : x.toNat / 10 < 10 := by omega
  have hr : x.toNat % 10 < 10 := by omega
  have hds : ∀ c ∈ [digitCh (x.toNat / 10), digitCh (x.toNat % 10)], isDig c = true := by
    intro c hc
    rcases List.mem_cons.mp hc with rfl | hc
    · exact isDig_digitCh hq
    · rcases List.mem_cons.mp hc with rfl | hc
      · exact isDig_digitCh hr
      · exact absurd hc (by simp)
  have := parseDigitsAux_digits [digitCh (x.toNat / 10), digitCh (x.toNat % 10)] 0 r hds
  simp only [List.length_cons, List.length_nil] at this
  rw [show parseDigits 2 = parseDigitsAux 2 0 from rfl]
  rw [this]
  have hv : digitsVal 0 [digitCh (x.toNat / 10), digitCh (x.toNat % 10)] = x.toNat := by
    simp only [digitsVal, List.foldl_cons, List.foldl_nil]
    rw [digitCh_toNat hq, digitCh_toNat hr]
    omega
  rw [hv]

theorem parseMonthDay_digit_head {d0 : Char} {l : List Char} (hd0 : isDig d0 = true) :
    parseMonthDay (d0 :: l) = some (1, 1, d0 :: l) := by
  have hne := (isDig_ne hd0).2.1
  unfold parseMonthDay
  split
  case _ l2 heq =>
    exact absurd (List.cons.injEq _ _ _ _ ▸ heq).1 hne
  case _ => rfl

theorem parseDTrest_digit_head {y : Int} {d0 : Char} {l : List Char}
    (hd0 : isDig d0 = true) : parseDTrest y (d0 :: l) = none := by
  have hT := (isDig_ne hd0).2.2.1
  unfold parseDTrest
  rw [parseMonthDay_digit_head hd0]
  dsimp only
  have h31 : daysInMonth y 1 = 31 := by norm_num [daysInMonth]
  rw [h31, if_neg (by norm_num)]
  split
  case _ heq => exact absurd heq (by simp)
  case _ r3 heq =>
    exact absurd (List.cons.injEq _ _ _ _ ▸ heq).1 hT
  case _ => rfl

theorem parseYear_render {y v : Int} {out REST : List Char}
    (h : parseYear ((intStr y).data ++ '-' :: REST) = some (v, out)) :
    (v = y ∧ out = '-' :: REST) ∨
      (∃ d0 out', out = d0 :: out' ∧ isDig d0 = true) := by
  by_cases hy : y < 0
  · rw [intStr_data_neg hy] at h
    rw [show ('-' :: natDigits y.natAbs) ++ '-' :: REST
        = '-' :: (natDigits y.natAbs ++ '-' :: REST) from rfl] at h
    rw [show parseYear ('-' :: (natDigits y.natAbs ++ '-' :: REST))
        = (match parseDigits 6 (natDigits y.natAbs ++ '-' :: REST) with
           | some (v, r) => if v = 0 then none else some (-(v : Int), r)
           | none => none) from rfl] at h
    cases hd6 : parseDigits 6 (natDigits y.natAbs ++ '-' :: REST) with
    | none => rw [hd6] at h; exact absurd h (by simp)
    | some vr =>
      obtain ⟨v2, out2⟩ := vr
      rw [hd6] at h
      dsimp only at h
      rcases parseDigits_exact 6 0 (natDigits y.natAbs) REST out2 '-' v2
          (natDigits_all_digits _) (by decide) hd6 with
        ⟨hlen, hval, hout⟩ | ⟨_, d0, out', hout, hd0⟩
      · have hv2 : v2 = y.natAbs := by
          rw [hval, digitsVal_natDigits]
          omega
        rw [if_neg (by omega)] at h
        simp only [Option.some.injEq, Prod.mk.injEq] at h
        refine Or.inl ⟨?_, ?_⟩
        · rw [← h.1, hv2]; omega
        · rw [← h.2, hout]
      · rw [show (if v2 = 0 then none
            else some (-(v2 : Int), out2) : Option (Int × List Char))
            = if v2 = 0 then none else some (-(v2 : Int), out2) from rfl] at h
        by_cases hz : v2 = 0
        · rw [if_pos hz] at h; exact absurd h (by simp)
        · rw [if_neg hz] at h
          simp only [Option.some.injEq, Prod.mk.injEq] at h
          exact Or.inr ⟨d0, out', by rw [← h.2, hout], hd0⟩
  · rw [intStr_data_nonneg (by omega)] at h
    cases hnd : natDigits y.toNat with
    | nil => exact absurd hnd (natDigits_ne_nil _)
    | cons c cs =>
      rw [hnd] at h
      have hcdig : isDig c = true :=
        natDigits_all_digits y.toNat c (hnd ▸ List.mem_cons_self _ _)
      have h1 := (isDig_ne hcdig).1
      have h2 := (isDig_ne hcdig).2.1
      rw [show ((c :: cs) ++ '-' :: REST) = c :: (cs ++ '-' :: REST) from rfl] at h
      rw [show parseYear (c :: (cs ++ '-' :: REST))
          = (if c = '+' then
              match parseDigits 6 (cs ++ '-' :: REST) with
              | some (v, r) => some ((v : Int), r)
              | none => none
            else if c = '-' then
              match parseDigits 6 (cs ++ '-' :: REST) with
              | some (v, r) => if v = 0 then none else some (-(v : Int), r)
              | none => none
            else
              match parseDigits 4 (c :: (cs ++ '-' :: REST)) with
              | some (v, r) => some ((v : Int), r)
              | none => none) from rfl] at h
      rw [if_neg h1, if_neg h2] at h
      rw [show (c :: (cs ++ '-' :: REST)) = ((c :: cs) ++ '-' :: REST) from rfl] at h
      cases hd4 : parseDigits 4 ((c :: cs) ++ '-' :: REST) with
      | none => rw [hd4] at h; exact absurd h (by simp)
      | some vr =>
        obtain ⟨v2, out2⟩ := vr
        rw [hd4] at h
        simp only [Option.some.injEq, Prod.mk.injEq] at h
        rcases parseDigits_exact 4 0 (c :: cs) REST out2 '-' v2
            (hnd ▸ natDigits_all_digits y.toNat) (by decide) hd4 with
          ⟨hlen, hval, hout⟩ | ⟨_, d0, out', hout, hd0⟩
        · have hv2 : v2 = y.toNat := by
            rw [hval, ← hnd, digitsVal_natDigits]
            omega
          refine Or.inl ⟨?_, ?_⟩
          · rw [← h.1, hv2]; omega
          · rw [← h.2, hout]
        · exact Or.inr ⟨d0, out', by rw [← h.2, hout], hd0⟩

theorem parseDTrest_render {yv mo d hh mi ss : Int} {p : DTParts}
    (hmo : 0 ≤ mo) (hmo' : mo < 100) (hd : 0 ≤ d) (hd' : d < 100)
    (hhh : 0 ≤ hh) (hhh' : hh < 100) (hmi : 0 ≤ mi) (hmi' : mi < 100)
    (hss : 0 ≤ ss) (hss' : ss < 100)
    (h : parseDTrest yv ('-' :: ((padStart2 (intStr mo)).data
        ++ '-' :: ((padStart2 (intStr d)).data
        ++ 'T' :: ((padStart2 (intStr hh)).data
        ++ ':' :: ((padStart2 (intStr mi)).data
        ++ ':' :: ((padStart2 (intStr ss)).data ++ ['Z'])))))) = some p) :
    p = ⟨yv, mo, d, hh * 3600000 + mi * 60000 + ss * 1000, true,
      OffsetSpec.utcZ⟩ := by
  unfold parseDTrest at h
  rw [show parseMonthDay ('-' :: ((padStart2 (intStr mo)).data
      ++ '-' :: ((padStart2 (intStr d)).data
      ++ 'T' :: ((padStart2 (intStr hh)).data
      ++ ':' :: ((padStart2 (intStr mi)).data
      ++ ':' :: ((padStart2 (intStr ss)).data ++ ['Z']))))))
      = (match parseDigits 2 ((padStart2 (intStr mo)).data
          ++ '-' :: ((padStart2 (intStr d)).data
          ++ 'T' :: ((padStart2 (intStr hh)).data
          ++ ':' :: ((padStart2 (intStr mi)).data
          ++ ':' :: ((padStart2 (intStr ss)).data ++ ['Z']))))) with
         | some (mo2, r) =>
           match r with
           | '-' :: r2 =>
             (match parseDigits 2 r2 with
              | some (d2, r3) => some ((mo2 : Int), (d2 : Int), r3)
              | none => none)
           | _ => some ((mo2 : Int), 1, r)
         | none => none) from rfl] at h
  rw [p2_parse hmo hmo'] at h
  simp only [] at h
  rw [p2_parse hd hd'] at h
  simp only [] at h
  split at h
  · exact absurd h (by simp)
  · rw [show parseTime ((padStart2 (intStr hh)).data
        ++ ':' :: ((padStart2 (intStr mi)).data
        ++ ':' :: ((padStart2 (intStr ss)).data ++ ['Z'])))
        = (match parseDigits 2 ((padStart2 (intStr hh)).data
            ++ ':' :: ((padStart2 (intStr mi)).data
            ++ ':' :: ((padStart2 (intStr ss)).data ++ ['Z']))) with
           | none => none
           | some (hh2, r) =>
             match r with
             | ':' :: r2 =>
               (match parseDigits 2 r2 with
                | none => none
                | some (mi2, r3) =>
                  match parseSecFrac r3 with
                  | none => none
                  | some (ss2, ms2, r4) =>
                    if hh2 > 24 || mi2 > 59 || ss2 > 59
                        || (hh2 == 24 && (mi2 != 0 || ss2 != 0 || ms2 != 0)) then
                      none
                    else some ((hh2 : Int) * 3600000 + (mi2 : Int) * 60000
                                 + (ss2 : Int) * 1000 + (ms2 : Int), r4))
             | _ => none) from rfl] at h
    rw [p2_parse hhh hhh'] at h
    simp only [] at h
    rw [p2_parse hmi hmi'] at h
    simp only [] at h
    rw [show parseSecFrac (':' :: ((padStart2 (intStr ss)).data ++ ['Z']))
        = (match parseDigits 2 ((padStart2 (intStr ss)).data ++ ['Z']) with
           | some (ss2, r) =>
             match parseFrac r with
             | some (ms2, r2) => some (ss2, ms2, r2)
             | none => none
           | none => none) from rfl] at h
    rw [p2_parse hss hss'] at h
    simp only [] at h
    rw [show parseFrac ['Z'] = some (0, ['Z']) from rfl] at h
    simp only [] at h
    split at h
    · exact absurd h (by simp)
    · case _ tms r4 heq =>
      split at heq
      · exact absurd heq (by simp)
      · simp only [Option.some.injEq, Prod.mk.injEq] at heq
        obtain ⟨htms, hr4⟩ := heq
        subst hr4
        rw [show parseOffset ['Z'] = some OffsetSpec.utcZ from rfl] at h
        simp only [] at h
        simp only [Option.some.injEq] at h
        rw [← h, ← htms]
        have c1 : (mo.toNat : Int) = mo := Int.toNat_of_nonneg hmo
        have c2 : (d.toNat : Int) = d := Int.toNat_of_nonneg hd
        have c3 : (hh.toNat : Int) = hh := Int.toNat_of_nonneg hhh
        have c4 : (mi.toNat : Int) = mi := Int.toNat_of_nonneg hmi
        have c5 : (ss.toNat : Int) = ss := Int.toNat_of_nonneg hss
        simp only [c1, c2, c3, c4, c5, Nat.cast_zero, add_zero]

theorem parseDT_render {y mo d hh mi ss : Int} {p : DTParts}
    (hmo : 0 ≤ mo) (hmo' : mo < 100) (hd : 0 ≤ d) (hd' : d < 100)
    (hhh : 0 ≤ hh) (hhh' : hh < 100) (hmi : 0 ≤ mi) (hmi' : mi < 100)
    (hss : 0 ≤ ss) (hss' : ss < 100)
    (h : parseDT ((intStr y).data
        ++ '-' :: ((padStart2 (intStr mo)).data
        ++ '-' :: ((padStart2 (intStr d)).data
        ++ 'T' :: ((padStart2 (intStr hh)).data
        ++ ':' :: ((padStart2 (intStr mi)).data
        ++ ':' :: ((padStart2 (intStr ss)).data ++ ['Z'])))))) = some p) :
    p = ⟨y, mo, d, hh * 3600000 + mi * 60000 + ss * 1000, true,
      OffsetSpec.utcZ⟩ := by
  unfold parseDT at h
  cases hy : parseYear ((intStr y).data
      ++ '-' :: ((padStart2 (intStr mo)).data
      ++ '-' :: ((padStart2 (intStr d)).data
      ++ 'T' :: ((padStart2 (intStr hh)).data
      ++ ':' :: ((padStart2 (intStr mi)).data
      ++ ':' :: ((padStart2 (intStr ss)).data ++ ['Z'])))))) with
  | none => rw [hy] at h; exact absurd h (by simp)
  | some vr =>
    obtain ⟨v, out⟩ := vr
    rw [hy] at h
    dsimp only at h
    rcases parseYear_render hy with ⟨rfl, rfl⟩ | ⟨d0, out', rfl, hd0⟩
    · exact parseDTrest_render hmo hmo' hd hd' hhh hhh' hmi hmi' hss hss' h
    · rw [parseDTrest_digit_head hd0] at h
      exact absurd h (by simp)

/-! ## Rendering, parsing and conversion: structural facts -/

theorem hourOf_bounds (t : Int) : 0 ≤ hourOf t ∧ hourOf t ≤ 23 := by
  unfold hourOf msOfDay
  omega

theorem minuteOf_bounds (t : Int) : 0 ≤ minuteOf t ∧ minuteOf t ≤ 59 := by
  unfold minuteOf msOfDay
  omega

theorem secondOf_bounds (t : Int) : 0 ≤ secondOf t ∧ secondOf t ≤ 59 := by
  unfold secondOf msOfDay
  omega

theorem monthOf_bounds (t : Int) : 1 ≤ monthOf t ∧ monthOf t ≤ 12 :=
  ⟨(civilFromDays_mday_bounds (epochDays t)).1,
   (civilFromDays_mday_bounds (epochDays t)).2.1⟩

theorem dayOf_bounds (t : Int) : 1 ≤ dayOf t ∧ dayOf t ≤ 31 :=
  ⟨(civilFromDays_mday_bounds (epochDays t)).2.2.1,
   (civilFromDays_mday_bounds (epochDays t)).2.2.2⟩

theorem hms_sum (t : Int) :
    hourOf t * 3600000 + minuteOf t * 60000 + secondOf t * 1000
      = t - epochDays t * 86400000 - t % 1000 := by
  unfold hourOf minuteOf secondOf msOfDay epochDays
  omega

theorem renderValid_data (u : Int) :
    (renderValid u).data
      = (intStr (yearOf u)).data
        ++ '-' :: ((padStart2 (intStr (monthOf u))).data
        ++ '-' :: ((padStart2 (intStr (dayOf u))).data
        ++ 'T' :: ((padStart2 (intStr (hourOf u))).data
        ++ ':' :: ((padStart2 (intStr (minuteOf u))).data
        ++ ':' :: (padStart2 (intStr (secondOf u))).data)))) := by
  simp only [renderValid, String.data_append,
    show ("-" : String).data = ['-'] from rfl,
    show ("T" : String).data = ['T'] from rfl,
    show (":" : String).data = [':'] from rfl,
    List.singleton_append, List.append_assoc, List.cons_append, List.nil_append]

theorem renderValidZ_data (u : Int) :
    (renderValid u ++ "Z").data
      = (intStr (yearOf u)).data
        ++ '-' :: ((padStart2 (intStr (monthOf u))).data
        ++ '-' :: ((padStart2 (intStr (dayOf u))).data
        ++ 'T' :: ((padStart2 (intStr (hourOf u))).data
        ++ ':' :: ((padStart2 (intStr (minuteOf u))).data
        ++ ':' :: ((padStart2 (intStr (secondOf u))).data ++ ['Z'])))))
       := by
  rw [String.data_append, renderValid_data,
    show ("Z" : String).data = ['Z'] from rfl]
  simp only [List.append_assoc, List.cons_append]

theorem chars_intStr (x : Int) : ∀ c ∈ (intStr x).data, isDig c = true ∨ c = '-' := by
  intro c hc
  unfold intStr at hc
  split at hc
  · rw [show (("-" : String) ++ String.mk (natDigits x.natAbs)).data
        = '-' :: natDigits x.natAbs from rfl] at hc
    rcases List.mem_cons.mp hc with rfl | hc
    · exact Or.inr rfl
    · exact Or.inl (natDigits_all_digits _ c hc)
  · exact Or.inl (natDigits_all_digits _ c hc)

theorem chars_pad (s : String) : ∀ c ∈ (padStart2 s).data, c = '0' ∨ c ∈ s.data := by
  intro c hc
  unfold padStart2 at hc
  rcases List.mem_append.mp hc with hc | hc
  · exact Or.inl (List.eq_of_mem_replicate hc)
  · exact Or.inr hc

theorem chars_p2_intStr (x : Int) :
    ∀ c ∈ (padStart2 (intStr x)).data, isDig c = true ∨ c = '-' := by
  intro c hc
  rcases chars_pad _ c hc with rfl | hc
  · exact Or.inl (by decide)
  · exact chars_intStr x c hc

theorem chars_renderValid (u : Int) :
    ∀ c ∈ (renderValid u).data,
      isDig c = true ∨ c = '-' ∨ c = 'T' ∨ c = ':' := by
  intro c hc
  rw [renderValid_data] at hc
  rcases List.mem_append.mp hc with hc | hc
  · rcases chars_intStr _ c hc with h | h
    · exact Or.inl h
    · exact Or.inr (Or.inl h)
  · rcases List.mem_cons.mp hc with rfl | hc
    · exact Or.inr (Or.inl rfl)
    · rcases List.mem_append.mp hc with hc | hc
      · rcases chars_p2_intStr _ c hc with h | h
        · exact Or.inl h
        · exact Or.inr (Or.inl h)
      · rcases List.mem_cons.mp hc with rfl | hc
        · exact Or.inr (Or.inl rfl)
        · rcases List.mem_append.mp hc with hc | hc
          · rcases chars_p2_intStr _ c hc with h | h
            · exact Or.inl h
            · exact Or.inr (Or.inl h)
          · rcases List.mem_cons.mp hc with rfl | hc
            · exact Or.inr (Or.inr (Or.inl rfl))
            · rcases List.mem_append.mp hc with hc | hc
              · rcases chars_p2_intStr _ c hc with h | h
                · exact Or.inl h
                · exact Or.inr (Or.inl h)
              · rcases List.mem_cons.mp hc with rfl | hc
                · exact Or.inr (Or.inr (Or.inr rfl))
                · rcases List.mem_append.mp hc with hc | hc
                  · rcases chars_p2_intStr _ c hc with h | h
                    · exact Or.inl h
                    · exact Or.inr (Or.inl h)
                  · rcases List.mem_cons.mp hc with rfl | hc
                    · exact Or.inr (Or.inr (Or.inr rfl))
                    · rcases chars_p2_intStr _ c hc with h | h
                      · exact Or.inl h
                      · exact Or.inr (Or.inl h)

theorem renderValid_hasT (u : Int) : 'T' ∈ (renderValid u).data := by
  rw [renderValid_data]
  simp

theorem includes_iff {s : String} {c : Char} : includes s c = true ↔ c ∈ s.data :=
  List.elem_iff

theorem includes_false {s : String} {c : Char} (h : c ∉ s.data) :
    includes s c = false := by
  cases hb : includes s c
  · rfl
  · exact absurd (includes_iff.mp hb) h

theorem renderValid_ne_empty (u : Int) : renderValid u ≠ "" := by
  intro h
  have := renderValid_hasT u
  rw [h] at this
  exact absurd this (by decide)

theorem renderValid_ne_posInf (u : Int) : renderValid u ≠ "∞" := by
  intro h
  have := renderValid_hasT u
  rw [h] at this
  exact absurd this (by decide)

theorem renderValid_ne_negInf (u : Int) : renderValid u ≠ "-∞" := by
  intro h
  have := renderValid_hasT u
  rw [h] at this
  exact absurd this (by decide)

theorem renderValid_ne_nan (u : Int) :
    renderValid u ≠ "NaN-NaN-NaNTNaN:NaN:NaN" := by
  intro h
  have ha : 'a' ∈ (renderValid u).data := by
    rw [h]
    decide
  rcases chars_renderValid u 'a' ha with h1 | h1 | h1 | h1 <;>
    exact absurd h1 (by decide)

theorem renderValid_no_Z (u : Int) : includes (renderValid u) 'Z' = false := by
  refine includes_false (fun hz => ?_)
  rcases chars_renderValid u 'Z' hz with h1 | h1 | h1 | h1 <;>
    exact absurd h1 (by decide)

theorem renderValid_no_plus (u : Int) : includes (renderValid u) '+' = false := by
  refine includes_false (fun hz => ?_)
  rcases chars_renderValid u '+' hz with h1 | h1 | h1 | h1 <;>
    exact absurd h1 (by decide)

theorem renderValid_has_T (u : Int) : includes (renderValid u) 'T' = true :=
  includes_iff.mpr (renderValid_hasT u)

theorem renderDate_some (u : Int) : renderDate (some u) = renderValid u := rfl

theorem renderDate_none : renderDate none = "NaN-NaN-NaNTNaN:NaN:NaN" := rfl

/-- `jsParse` does not depend on the host timezone unless the parsed string
is a date-time form without UTC offset. -/
theorem jsParse_tz_indep {s : String} {tz1 tz2 : Int}
    (h : ∀ p, parseDT s.data = some p
      → ¬(p.hasTime = true ∧ p.offset = OffsetSpec.absent)) :
    jsParse tz1 s = jsParse tz2 s := by
  unfold jsParse
  cases hp : parseDT s.data with
  | none => rfl
  | some p =>
    have hnp := h p hp
    dsimp only
    cases ho : p.offset with
    | utcZ => rfl
    | shifted m => rfl
    | absent =>
      cases ht : p.hasTime with
      | false => rfl
      | true => exact absurd ⟨ht, ho⟩ hnp

/-- Parsing with an appended `Z` marker never depends on the host timezone. -/
theorem jsParse_appendZ_tz_indep (s : String) (tz1 tz2 : Int) :
    jsParse tz1 (s ++ "Z") = jsParse tz2 (s ++ "Z") := by
  refine jsParse_tz_indep (fun p hp ⟨ht, ho⟩ => ?_)
  rw [String.data_append, show ("Z" : String).data = ['Z'] from rfl] at hp
  exact parseDT_Zsuffix_not_absent hp ho

/-- Parsing a string with no `T` never depends on the host timezone. -/
theorem jsParse_noT_tz_indep {s : String} (h : includes s 'T' = false)
    (tz1 tz2 : Int) : jsParse tz1 s = jsParse tz2 s := by
  refine jsParse_tz_indep (fun p hp ⟨ht, _⟩ => ?_)
  have := parseDT_hasTime_T hp ht
  rw [includes_iff.mpr this] at h
  exact absurd h (by simp)

/-- Parsing a string containing `Z` never depends on the host timezone. -/
theorem jsParse_hasZ_tz_indep {s : String} (h : includes s 'Z' = true)
    (tz1 tz2 : Int) : jsParse tz1 s = jsParse tz2 s := by
  refine jsParse_tz_indep (fun p hp ⟨_, ho⟩ => ?_)
  exact parseDT_absent_no_Z hp ho (includes_iff.mp h)

/-- Parsing the rendered form of a valid instant (with `Z` appended) either
fails or recovers the instant truncated to whole seconds. -/
theorem jsParse_renderValid {u v : Int} {tz : Int}
    (h : jsParse tz (renderValid u ++ "Z") = some v) : v = truncSec u := by
  unfold jsParse at h
  rw [renderValidZ_data u] at h
  cases hp : parseDT ((intStr (yearOf u)).data
      ++ '-' :: ((padStart2 (intStr (monthOf u))).data
      ++ '-' :: ((padStart2 (intStr (dayOf u))).data
      ++ 'T' :: ((padStart2 (intStr (hourOf u))).data
      ++ ':' :: ((padStart2 (intStr (minuteOf u))).data
      ++ ':' :: ((padStart2 (intStr (secondOf u))).data ++ ['Z'])))))) with
  | none => rw [hp] at h; exact absurd h (by simp)
  | some p =>
    rw [hp] at h
    have hmo := monthOf_bounds u
    have hd := dayOf_bounds u
    have hhh := hourOf_bounds u
    have hmi := minuteOf_bounds u
    have hss := secondOf_bounds u
    have hp2 := parseDT_render (by omega) (by omega) (by omega) (by omega)
      (by omega) (by omega) (by omega) (by omega) (by omega) (by omega) hp
    subst hp2
    dsimp only at h
    rw [show (daysFromCivil (yearOf u) (monthOf u) (dayOf u))
        = epochDays u from daysFromCivil_civilFromDays (epochDays u)] at h
    unfold mkDate at h
    split at h
    · simp only [Option.some.injEq] at h
      rw [← h]
      have := hms_sum u
      unfold truncSec
      omega
    · exact absurd h (by simp)

theorem mkDate_bounds {n t : Int} (h : mkDate n = some t) :
    -8640000000000000 ≤ t ∧ t ≤ 8640000000000000 := by
  unfold mkDate at h
  split at h
  · simp only [Option.some.injEq] at h
    omega
  · exact absurd h (by simp)

theorem jsParse_bounds {tz : Int} {s : String} {t : Int}
    (h : jsParse tz s = some t) :
    -8640000000000000 ≤ t ∧ t ≤ 8640000000000000 := by
  unfold jsParse at h
  cases hp : parseDT s.data with
  | none => rw [hp] at h; exact absurd h (by simp)
  | some p =>
    rw [hp] at h
    dsimp only at h
    exact mkDate_bounds h

theorem parsedInstant_bounds {tz : Int} {s : String} {t : Int}
    (h : parsedInstant tz s = some t) :
    -8640000000000000 ≤ t ∧ t ≤ 8640000000000000 := by
  unfold parsedInstant at h
  split at h
  · exact jsParse_bounds h
  · split at h
    · exact jsParse_bounds h
    · exact jsParse_bounds h

/-- On a non-sentinel input, `convertUTCToTimezone` with target IST renders
the parse-step result shifted by the IST offset. -/
theorem convert_IST_eq (tz : Int) (s : String) (hs : isSentinelStr s = false) :
    convertUTCToTimezone tz s TimezoneType.IST
      = renderDate (jsAddMs (parsedInstant tz s) istOffsetMs) := by
  unfold convertUTCToTimezone
  rw [show (s == "" || s == "-∞" || s == "∞") = isSentinelStr s from rfl, hs]
  rfl

/-- Applying the IST conversion to the rendered form of a valid instant
produces the rendering of a different instant (or the `NaN` rendering):
it can never reproduce the same string. -/
theorem convert_renderValid_ne (tz t1 : Int) :
    convertUTCToTimezone tz (renderValid t1) TimezoneType.IST
      ≠ renderValid t1 := by
  rw [convert_IST_eq tz (renderValid t1) (by
    unfold isSentinelStr
    simp [renderValid_ne_empty t1, renderValid_ne_negInf t1,
      renderValid_ne_posInf t1])]
  unfold parsedInstant
  rw [renderValid_no_Z, renderValid_no_plus, renderValid_has_T]
  simp only [Bool.false_or, Bool.or_false, Bool.false_eq_true, if_false,
    if_true]
  cases hjp : jsParse tz (renderValid t1 ++ "Z") with
  | none =>
    rw [show jsAddMs none istOffsetMs = none from rfl, renderDate_none]
    intro hEq
    exact renderValid_ne_nan t1 hEq.symm
  | some t2 =>
    have ht2 : t2 = truncSec t1 := jsParse_renderValid hjp
    rw [show jsAddMs (some t2) istOffsetMs = mkDate (t2 + istOffsetMs) from rfl]
    unfold mkDate
    split
    · rw [renderDate_some]
      intro hEq
      have hp2 : jsParse tz (renderValid (t2 + istOffsetMs) ++ "Z") = some t2 := by
        rw [hEq]; exact hjp
      have hfix := jsParse_renderValid hp2
      unfold truncSec at hfix ht2
      unfold istOffsetMs at hfix
      omega
    · rw [renderDate_none]
      intro hEq
      exact renderValid_ne_nan t1 hEq.symm


/-- A string whose parse has no time component parses with absent offset and
zero time-of-day. -/
theorem parseDT_noTime {l : List Char} {p : DTParts} (h : parseDT l = some p)
    (hf : p.hasTime = false) : p.offset = OffsetSpec.absent ∧ p.timeMs = 0 := by
  rcases parseDT_struct h with ⟨_, ho, hm, _⟩ | ⟨ht, _⟩
  · exact ⟨ho, hm⟩
  · rw [hf] at ht; exact absurd ht (by simp)

/-- `jsParse` on a string that does not parse as an offset-less date-time is
independent of the host timezone. -/
theorem jsParse_not_local {s : String} (h : isLocalDateTime s = false)
    (tz1 tz2 : Int) : jsParse tz1 s = jsParse tz2 s := by
  refine jsParse_tz_indep (fun p hp ⟨ht, ho⟩ => ?_)
  unfold isLocalDateTime at h
  rw [hp] at h
  simp only [ht, ho] at h
  exact absurd h (by simp)

/-- The parse step of the conversion is independent of the host timezone
unless the input contains `+` and parses as an offset-less date-time. -/
theorem parsedInstant_tz_indep {s : String} (tz1 tz2 : Int)
    (h : ¬(includes s '+' = true ∧ isLocalDateTime s = true)) :
    parsedInstant tz1 s = parsedInstant tz2 s := by
  unfold parsedInstant
  cases hZ : includes s 'Z' with
  | true =>
    simp only [hZ, Bool.true_or, if_true]
    exact jsParse_hasZ_tz_indep hZ tz1 tz2
  | false =>
    cases hP : includes s '+' with
    | true =>
      simp only [hZ, hP, Bool.false_or, if_true]
      cases hL : isLocalDateTime s with
      | true => exact absurd ⟨hP, hL⟩ h
      | false => exact jsParse_not_local hL tz1 tz2
    | false =>
      simp only [hZ, hP, Bool.false_or, Bool.false_eq_true, if_false]
      cases hT : includes s 'T' with
      | true =>
        simp only [if_true]
        exact jsParse_appendZ_tz_indep s tz1 tz2
      | false =>
        simp only [Bool.false_eq_true, if_false]
        exact jsParse_noT_tz_indep hT tz1 tz2

/-! ## The claims -/

/-- C1: the claim says that for a non-empty, non-sentinel input that fails to
parse (e.g. `not-a-date`), both functions return the input unchanged and
never produce a `NaN`-containing output.  The code actually returns
`NaN-NaN-NaNTNaN:NaN:NaN`: `new Date('not-a-date')` does not throw but
yields an Invalid Date, the `try`/`catch` (whose comment promises to return
the original) is dead code, and the `NaN` field values are rendered into the
output string. -/
theorem C1_malformed_nan_output (tzHost : Int) :
    convertUTCToTimezone tzHost "not-a-date" TimezoneType.IST
        = "NaN-NaN-NaNTNaN:NaN:NaN"
      ∧ convertUTCToIST tzHost "not-a-date" = "NaN-NaN-NaNTNaN:NaN:NaN"
      ∧ ("NaN-NaN-NaNTNaN:NaN:NaN" : String) ≠ "not-a-date" :=
  ⟨rfl, rfl, by decide⟩

/-- C2: the sentinel inputs `""`, `-∞` and `∞` pass through unchanged under
both zones and both functions, in every host timezone; they are never parsed
as dates. -/
theorem C2_sentinel_passthrough (tzHost : Int) :
    convertUTCToTimezone tzHost "" TimezoneType.UTC = ""
      ∧ convertUTCToTimezone tzHost "" TimezoneType.IST = ""
      ∧ convertUTCToTimezone tzHost "-∞" TimezoneType.UTC = "-∞"
      ∧ convertUTCToTimezone tzHost "-∞" TimezoneType.IST = "-∞"
      ∧ convertUTCToTimezone tzHost "∞" TimezoneType.UTC = "∞"
      ∧ convertUTCToTimezone tzHost "∞" TimezoneType.IST = "∞"
      ∧ convertUTCToIST tzHost "" = ""
      ∧ convertUTCToIST tzHost "-∞" = "-∞"
      ∧ convertUTCToIST tzHost "∞" = "∞" :=
  ⟨rfl, rfl, rfl, rfl, rfl, rfl, rfl, rfl, rfl⟩

/-- C3: with zone `UTC`, `convertUTCToTimezone` is the identity on every
input string, including arbitrarily malformed ones. -/
theorem C3_utc_identity (tzHost : Int) (s : String) :
    convertUTCToTimezone tzHost s TimezoneType.UTC = s := by
  unfold convertUTCToTimezone
  split
  · rfl
  · rfl

/-- C4 counterexample: the expanded-year input `+275760-09-13T00:00:00Z`
parses to the maximal valid instant, but adding 330 minutes overflows the
Date range, so the function returns the `NaN` rendering instead of the
`YYYY-MM-DDTHH:mm:ss` rendering of the shifted instant's calendar fields
that the claim asserts for every validly-parsing input. -/
theorem C4_counterexample_overflow :
    isSentinelStr "+275760-09-13T00:00:00Z" = false
      ∧ parsedInstant 0 "+275760-09-13T00:00:00Z" = some 8640000000000000
      ∧ convertUTCToTimezone 0 "+275760-09-13T00:00:00Z" TimezoneType.IST
          = "NaN-NaN-NaNTNaN:NaN:NaN"
      ∧ convertUTCToTimezone 0 "+275760-09-13T00:00:00Z" TimezoneType.IST
          ≠ renderValid (8640000000000000 + 19800000) :=
  ⟨rfl, by decide, by decide, by decide⟩

/-- C4 (amended): for every non-sentinel input whose parse step yields a
valid instant `t` such that the shifted instant `t + 330·60000` is still in
the Date range, the IST conversion returns exactly that shifted instant
rendered from its UTC calendar fields as `YYYY-MM-DDTHH:mm:ss` with
two-digit zero-padded month, day, hour, minute and second; in particular
`2024-01-01T00:00:00` becomes `2024-01-01T05:30:00`. -/
theorem C4_ist_shift (tzHost : Int) (s : String) (t : Int)
    (hs : isSentinelStr s = false) (hp : parsedInstant tzHost s = some t)
    (hub : t + 19800000 ≤ 8640000000000000) :
    convertUTCToTimezone tzHost s TimezoneType.IST = renderValid (t + 19800000)
      ∧ convertUTCToTimezone tzHost "2024-01-01T00:00:00" TimezoneType.IST
          = "2024-01-01T05:30:00" := by
  constructor
  · have hb := parsedInstant_bounds hp
    have hoff : istOffsetMs = 19800000 := rfl
    rw [convert_IST_eq tzHost s hs, hp,
      show jsAddMs (some t) istOffsetMs = mkDate (t + istOffsetMs) from rfl]
    unfold mkDate
    rw [if_pos (by omega)]
    rw [renderDate_some, hoff]
  · rw [convert_IST_eq tzHost "2024-01-01T00:00:00" (by decide),
      parsedInstant_tz_indep tzHost 0 (by decide)]
    decide

/-- Witness for C4 (amended) at `2024-01-01T00:00:00`. -/
theorem C4_ist_shift_witness :
    isSentinelStr "2024-01-01T00:00:00" = false
      ∧ parsedInstant 0 "2024-01-01T00:00:00" = some 1704067200000
      ∧ (1704067200000 : Int) + 19800000 ≤ 8640000000000000
      ∧ (convertUTCToTimezone 0 "2024-01-01T00:00:00" TimezoneType.IST
            = renderValid (1704067200000 + 19800000)
        ∧ convertUTCToTimezone 0 "2024-01-01T00:00:00" TimezoneType.IST
            = "2024-01-01T05:30:00") :=
  ⟨by decide, by decide, by decide,
    C4_ist_shift 0 "2024-01-01T00:00:00" 1704067200000 (by decide) (by decide)
      (by decide)⟩

/-- C5: on a non-sentinel input with the non-UTC zone, the conversion
performs exactly the shape-directed parse step the specification describes —
parse as-is when the string contains `Z` or `+`, parse with an appended `Z`
when it contains `T`, otherwise parse directly — and then shifts and renders
the result. -/
theorem C5_parse_branching (tzHost : Int) (s : String)
    (hs : isSentinelStr s = false) :
    convertUTCToTimezone tzHost s TimezoneType.IST
      = renderDate (jsAddMs (specParseStep tzHost s) istOffsetMs) :=
  convert_IST_eq tzHost s hs

/-- Witness for C5 at `2024-01-01T00:00:00`. -/
theorem C5_parse_branching_witness :
    isSentinelStr "2024-01-01T00:00:00" = false
      ∧ convertUTCToTimezone 0 "2024-01-01T00:00:00" TimezoneType.IST
          = renderDate (jsAddMs (specParseStep 0 "2024-01-01T00:00:00")
              istOffsetMs) :=
  ⟨by decide, C5_parse_branching 0 "2024-01-01T00:00:00" (by decide)⟩

/-- C6: the 330-minute IST shift carries across a calendar-day boundary:
`2024-01-01T20:00:00` becomes `2024-01-02T01:30:00`, in every host
timezone. -/
theorem C6_day_rollover (tzHost : Int) :
    convertUTCToTimezone tzHost "2024-01-01T20:00:00" TimezoneType.IST
      = "2024-01-02T01:30:00" := by
  rw [convert_IST_eq tzHost "2024-01-01T20:00:00" (by decide),
    parsedInstant_tz_indep tzHost 0 (by decide)]
  decide

/-- C7 counterexample: the expanded-year date-time `+002024-01-01T10:00:00`
contains `+`, is therefore parsed as-is, and — having no UTC offset — is
interpreted in host-local time per ECMA-262, so two hosts with different
local timezones (offsets 0 and +330 minutes) produce different output for
the same input and zone. -/
theorem C7_counterexample_local_parse :
    convertUTCToTimezone 0 "+002024-01-01T10:00:00" TimezoneType.IST
      ≠ convertUTCToTimezone 330 "+002024-01-01T10:00:00" TimezoneType.IST := by
  decide

/-- C7 (amended): the output is a function of the input string and zone
alone — identical across host timezones — for every input except those that
contain `+` and parse as a date-time without explicit UTC offset (the
expanded-year forms, which ECMA-262 interprets in host-local time). -/
theorem C7_determinism (tz1 tz2 : Int) (s : String) (zone : TimezoneType)
    (h : ¬(includes s '+' = true ∧ isLocalDateTime s = true)) :
    convertUTCToTimezone tz1 s zone = convertUTCToTimezone tz2 s zone := by
  cases zone with
  | UTC =>
    have hUTC : ∀ tz : Int, convertUTCToTimezone tz s TimezoneType.UTC = s := by
      intro tz
      unfold convertUTCToTimezone
      split
      · rfl
      · rfl
    rw [hUTC, hUTC]
  | IST =>
    cases hb : isSentinelStr s with
    | true =>
      have hId : ∀ tz : Int, convertUTCToTimezone tz s TimezoneType.IST = s := by
        intro tz
        unfold convertUTCToTimezone
        rw [show (s == "" || s == "-∞" || s == "∞") = isSentinelStr s from rfl,
          hb]
        rfl
      rw [hId, hId]
    | false =>
      rw [convert_IST_eq tz1 s hb, convert_IST_eq tz2 s hb,
        parsedInstant_tz_indep tz1 tz2 h]

/-- Witness for C7 (amended) at `2024-01-01T00:00:00` with host offsets 0
and +330. -/
theorem C7_determinism_witness :
    ¬(includes "2024-01-01T00:00:00" '+' = true
        ∧ isLocalDateTime "2024-01-01T00:00:00" = true)
      ∧ convertUTCToTimezone 0 "2024-01-01T00:00:00" TimezoneType.IST
          = convertUTCToTimezone 330 "2024-01-01T00:00:00" TimezoneType.IST :=
  ⟨by decide,
    C7_determinism 0 330 "2024-01-01T00:00:00" TimezoneType.IST (by decide)⟩

/-- C8 counterexample: the claim asserts non-idempotence for *every* input
that parses to a valid instant, but `+275760-09-13T00:00:00Z` parses to the
maximal instant, the shift overflows, both applications collapse to the
`NaN` rendering, and re-applying the conversion is a fixed point. -/
theorem C8_counterexample_idempotent :
    isSentinelStr "+275760-09-13T00:00:00Z" = false
      ∧ parsedInstant 0 "+275760-09-13T00:00:00Z" = some 8640000000000000
      ∧ convertUTCToTimezone 0
            (convertUTCToTimezone 0 "+275760-09-13T00:00:00Z" TimezoneType.IST)
            TimezoneType.IST
          = convertUTCToTimezone 0 "+275760-09-13T00:00:00Z" TimezoneType.IST :=
  ⟨rfl, by decide, by decide⟩

/-- C8 (amended): the IST conversion is not idempotent on any non-sentinel
input whose parse step yields a valid instant `t` with the shifted instant
`t + 330·60000` still in the Date range: re-applying the conversion never
reproduces the same string (the offset is added a second time, or the
re-parse degrades to the `NaN` rendering). -/
theorem C8_not_idempotent (tzHost : Int) (s : String) (t : Int)
    (hs : isSentinelStr s = false) (hp : parsedInstant tzHost s = some t)
    (hub : t + 19800000 ≤ 8640000000000000) :
    convertUTCToTimezone tzHost
        (convertUTCToTimezone tzHost s TimezoneType.IST) TimezoneType.IST
      ≠ convertUTCToTimezone tzHost s TimezoneType.IST := by
  have hb := parsedInstant_bounds hp
  have hoff : istOffsetMs = 19800000 := rfl
  have h1 : convertUTCToTimezone tzHost s TimezoneType.IST
      = renderValid (t + istOffsetMs) := by
    rw [convert_IST_eq tzHost s hs, hp,
      show jsAddMs (some t) istOffsetMs = mkDate (t + istOffsetMs) from rfl]
    unfold mkDate
    rw [if_pos (by omega)]
    exact renderDate_some _
  rw [h1]
  exact convert_renderValid_ne tzHost (t + istOffsetMs)

/-- Witness for C8 (amended) at `2024-01-01T00:00:00`. -/
theorem C8_not_idempotent_witness :
    isSentinelStr "2024-01-01T00:00:00" = false
      ∧ parsedInstant 0 "2024-01-01T00:00:00" = some 1704067200000
      ∧ (1704067200000 : Int) + 19800000 ≤ 8640000000000000
      ∧ convertUTCToTimezone 0
            (convertUTCToTimezone 0 "2024-01-01T00:00:00" TimezoneType.IST)
            TimezoneType.IST
          ≠ convertUTCToTimezone 0 "2024-01-01T00:00:00" TimezoneType.IST :=
  ⟨by decide, by decide, by decide,
    C8_not_idempotent 0 "2024-01-01T00:00:00" 1704067200000 (by decide)
      (by decide) (by decide)⟩

/-- C9: the hardcoded-IST function and the zone-parameterised function agree
on every input string and in every host timezone. -/
theorem C9_ist_functions_agree (tzHost : Int) (s : String) :
    convertUTCToIST tzHost s
      = convertUTCToTimezone tzHost s TimezoneType.IST := by
  unfold convertUTCToIST convertUTCToTimezone
  cases hb : (s == "" || s == "-∞" || s == "∞") with
  | true => simp only [hb, if_true]
  | false =>
    simp only [hb, Bool.false_eq_true, if_false]
    rfl

/-- C10: a non-sentinel input containing none of `Z`, `+`, `T` that parses
(necessarily as a date-only form) is taken through the direct-parse branch
and interpreted as UTC midnight of that day; in particular `2024-01-01`
becomes `2024-01-01T05:30:00`. -/
theorem C10_date_only_utc_midnight (tzHost : Int) (s : String) (p : DTParts)
    (hs : isSentinelStr s = false)
    (hZ : includes s 'Z' = false) (hP : includes s '+' = false)
    (hT : includes s 'T' = false)
    (hp : parseDT s.data = some p) :
    jsParse tzHost s = mkDate (daysFromCivil p.year p.month p.day * 86400000)
      ∧ convertUTCToTimezone tzHost s TimezoneType.IST
          = renderDate (jsAddMs (jsParse tzHost s) istOffsetMs)
      ∧ convertUTCToTimezone tzHost "2024-01-01" TimezoneType.IST
          = "2024-01-01T05:30:00" := by
  have hft : p.hasTime = false := by
    cases hft : p.hasTime with
    | false => rfl
    | true =>
      have hmem := parseDT_hasTime_T hp hft
      rw [includes_iff.mpr hmem] at hT
      exact absurd hT (by simp)
  obtain ⟨ho, hm⟩ := parseDT_noTime hp hft
  refine ⟨?_, ?_, ?_⟩
  · unfold jsParse
    rw [hp]
    dsimp only
    rw [ho, hft]
    simp only [Bool.false_eq_true, if_false]
    rw [hm, show daysFromCivil p.year p.month p.day * 86400000 + 0 - 0
        = daysFromCivil p.year p.month p.day * 86400000 from by ring]
  · rw [convert_IST_eq tzHost s hs]
    unfold parsedInstant
    rw [hZ, hP, hT]
    rfl
  · rw [convert_IST_eq tzHost "2024-01-01" (by decide),
      parsedInstant_tz_indep tzHost 0 (by decide)]
    decide

/-- Witness for C10 at `2024-01-01`. -/
theorem C10_date_only_utc_midnight_witness :
    isSentinelStr "2024-01-01" = false
      ∧ includes "2024-01-01" 'Z' = false
      ∧ includes "2024-01-01" '+' = false
      ∧ includes "2024-01-01" 'T' = false
      ∧ parseDT ("2024-01-01" : String).data
          = some ⟨2024, 1, 1, 0, false, OffsetSpec.absent⟩
      ∧ (jsParse 0 "2024-01-01"
            = mkDate (daysFromCivil 2024 1 1 * 86400000)
        ∧ convertUTCToTimezone 0 "2024-01-01" TimezoneType.IST
            = renderDate (jsAddMs (jsParse 0 "2024-01-01") istOffsetMs)
        ∧ convertUTCToTimezone 0 "2024-01-01" TimezoneType.IST
            = "2024-01-01T05:30:00") :=
  ⟨by decide, by decide, by decide, by decide, by decide,
    C10_date_only_utc_midnight 0 "2024-01-01"
      ⟨2024, 1, 1, 0, false, OffsetSpec.absent⟩ (by decide) (by decide)
      (by decide) (by decide) (by decide)⟩
